import Mathlib

/-!
# Verification of the blackjack Martingale simulator

Shallow embedding of `blackjack_simulator.py` and the simulation driver of
`app.py` (repository JackBergin/casino), together with theorems checking the
design document's claims about card valuation, the shoe, the hand resolver,
the Martingale driver and the seeding of the random source.

Conventions of the embedding:
* Python ints/floats used for money are embedded as `ℚ` (the driver's
  arithmetic is plain `+`/`-`/`*`/`**`, exact on the inputs in question).
* Hands are `List Card`; the rendered strings of `hand_str` are injective
  images of those lists, so ledger snapshots keep the card lists themselves.
* Python's module-level `random` generator is embedded as an unbounded
  stream `g : Nat → Nat` of draw values together with a cursor; numpy's
  separate generator (the one `np.random.seed` touches) is a distinct field
  of the process state that the engine never reads.
-/

namespace Casino

/-- Card ranks, `RANKS = ['2', ..., '10', 'J', 'Q', 'K', 'A']`. -/
inductive Rank where
  | r2 | r3 | r4 | r5 | r6 | r7 | r8 | r9 | r10 | J | Q | K | A
deriving DecidableEq, Repr

/-- Card suits, `SUITS = ['♠', '♥', '♦', '♣']`. -/
inductive Suit where
  | spade | heart | diamond | club
deriving DecidableEq, Repr

/-- `Card = namedtuple("Card", ["rank", "suit"])`. -/
structure Card where
  rank : Rank
  suit : Suit
deriving DecidableEq, Repr

/-- The `VALUES` table: number cards at face value, J/Q/K = 10, A = 11. -/
def VALUES : Rank → Nat
  | .r2 => 2 | .r3 => 3 | .r4 => 4 | .r5 => 5 | .r6 => 6 | .r7 => 7
  | .r8 => 8 | .r9 => 9 | .r10 => 10 | .J => 10 | .Q => 10 | .K => 10
  | .A => 11

/-- `RANKS` in source order. -/
def RANKS : List Rank :=
  [.r2, .r3, .r4, .r5, .r6, .r7, .r8, .r9, .r10, .J, .Q, .K, .A]

/-- `SUITS` in source order. -/
def SUITS : List Suit := [.spade, .heart, .diamond, .club]

/-- `sum(VALUES[c.rank] for c in hand)`: the unreduced total, every ace 11. -/
def rawSum (hand : List Card) : Nat :=
  (hand.map fun c => VALUES c.rank).sum

/-- `sum(1 for c in hand if c.rank == 'A')`. -/
def aceCount (hand : List Card) : Nat :=
  (hand.filter fun c => c.rank = Rank.A).length

/-- The `while value > 21 and aces:` reduction loop of `hand_value`. -/
def reduceAces : Nat → Nat → Nat
  | value, 0 => value
  | value, aces + 1 => if 21 < value then reduceAces (value - 10) aces else value

/-- `hand_value(hand)`: best blackjack value treating aces as 1 or 11. -/
def hand_value (hand : List Card) : Nat :=
  reduceAces (rawSum hand) (aceCount hand)

/-- `is_blackjack(hand)`: two cards totalling 21. -/
def is_blackjack (hand : List Card) : Bool :=
  decide (hand.length = 2) && decide (hand_value hand = 21)

/-- `is_soft_17(hand)`: at least one ace and the unreduced total is 17. -/
def is_soft_17 (hand : List Card) : Bool :=
  decide (0 < aceCount hand) && decide (rawSum hand = 17)

/-- Minimal possible contribution of one card (every ace as 1). -/
def minCard (c : Card) : Nat :=
  if c.rank = Rank.A then 1 else VALUES c.rank

/-- Minimal possible hand total: the sum with every ace counted as 1. -/
def minVal (hand : List Card) : Nat := (hand.map minCard).sum

theorem rawSum_cons (c : Card) (t : List Card) :
    rawSum (c :: t) = VALUES c.rank + rawSum t := by
  simp [rawSum]

theorem minVal_cons (c : Card) (t : List Card) :
    minVal (c :: t) = minCard c + minVal t := by
  simp [minVal]

theorem aceCount_cons (c : Card) (t : List Card) :
    aceCount (c :: t) = (if c.rank = Rank.A then 1 else 0) + aceCount t := by
  by_cases hA : c.rank = Rank.A
  · simp [aceCount, List.filter_cons, hA]
    omega
  · simp [aceCount, List.filter_cons, hA]

theorem rawSum_eq_minVal_add (hand : List Card) :
    rawSum hand = minVal hand + 10 * aceCount hand := by
  induction hand with
  | nil => rfl
  | cons c t ih =>
    rw [rawSum_cons, minVal_cons, aceCount_cons]
    by_cases hA : c.rank = Rank.A
    · have h1 : minCard c = 1 := by simp [minCard, hA]
      have h2 : VALUES c.rank = 11 := by rw [hA]; rfl
      rw [h1, h2, if_pos hA]
      omega
    · have h1 : minCard c = VALUES c.rank := by simp [minCard, hA]
      rw [h1, if_neg hA]
      omega

theorem one_le_minCard (c : Card) : 1 ≤ minCard c := by
  rcases c with ⟨r, s⟩
  cases r <;> simp [minCard, VALUES]

theorem minVal_append_one (hand : List Card) (c : Card) :
    minVal hand + 1 ≤ minVal (hand ++ [c]) := by
  have h := one_le_minCard c
  simp [minVal, List.sum_append]
  omega

theorem reduceAces_ge (aces : Nat) : ∀ value : Nat,
    value - 10 * aces ≤ reduceAces value aces := by
  induction aces with
  | zero => intro value; simp [reduceAces]
  | succ a ih =>
    intro value
    simp only [reduceAces]
    split
    · have := ih (value - 10)
      omega
    · omega

theorem reduceAces_of_le (value aces : Nat) (h : value ≤ 21) :
    reduceAces value aces = value := by
  cases aces with
  | zero => rfl
  | succ a => simp [reduceAces]; omega

theorem minVal_le_hand_value (hand : List Card) :
    minVal hand ≤ hand_value hand := by
  have h1 := reduceAces_ge (aceCount hand) (rawSum hand)
  have h2 := rawSum_eq_minVal_add hand
  unfold hand_value
  omega

/-- Full behaviour of the ace-reduction loop: it lands on `value - 10*k` for
the least viable `k`, never reducing below what aces allow, and the result is
maximal among the totals `value - 10*j` that do not bust. -/
theorem reduceAces_spec (aces : Nat) : ∀ value : Nat,
    ∃ k, k ≤ aces ∧ reduceAces value aces = value - 10 * k ∧
      (reduceAces value aces ≤ 21 ∨ k = aces) ∧
      (∀ j, j ≤ aces → value - 10 * j ≤ 21 →
        value - 10 * j ≤ reduceAces value aces) := by
  induction aces with
  | zero =>
    intro value
    refine ⟨0, le_refl 0, by simp [reduceAces], Or.inr rfl, ?_⟩
    intro j hj hle
    have hj0 : j = 0 := by omega
    subst hj0
    simp [reduceAces]
  | succ a ih =>
    intro value
    by_cases hv : 21 < value
    · obtain ⟨k, hk, heq, hbi, hbest⟩ := ih (value - 10)
      refine ⟨k + 1, by omega, ?_, ?_, ?_⟩
      · simp only [reduceAces, if_pos hv]
        omega
      · simp only [reduceAces, if_pos hv]
        rcases hbi with h | h
        · exact Or.inl h
        · exact Or.inr (by omega)
      · intro j hj hle
        have hj1 : 1 ≤ j := by omega
        have := hbest (j - 1) (by omega) (by omega)
        simp only [reduceAces, if_pos hv]
        omega
    · refine ⟨0, by omega, ?_, ?_, ?_⟩
      · simp only [reduceAces]
        rw [if_neg hv]
        omega
      · simp only [reduceAces]
        rw [if_neg hv]
        omega
      · intro j hj hle
        simp only [reduceAces]
        rw [if_neg hv]
        omega

/-- Exchange the entries at positions `i` and `j` (no-op out of bounds);
one step of the in-place Fisher–Yates walk `random.shuffle` performs. -/
def listSwap (l : List α) (i j : Nat) : List α :=
  match l[i]?, l[j]? with
  | some x, some y => (l.set i y).set j x
  | _, _ => l

/-- `random.shuffle`'s Fisher–Yates walk: for `i` from `len-1` down to `1`,
swap position `i` with a generator-chosen position in `0..i`.  `cur` is the
cursor into the module-level generator stream `g`; each step consumes one
value. -/
def fyAux (g : Nat → Nat) : Nat → Nat → List α → List α × Nat
  | cur, 0, l => (l, cur)
  | cur, i + 1, l => fyAux g (cur + 1) i (listSwap l (i + 1) (g cur % (i + 2)))

/-- `random.shuffle(l)`: permute `l` in place, consuming `l.length - 1`
values of the module-level generator. -/
def fyShuffle (g : Nat → Nat) (cur : Nat) (l : List α) : List α × Nat :=
  fyAux g cur (l.length - 1) l

/-- `[Card(rank, suit) for rank in RANKS for suit in SUITS]`. -/
def oneDeck : List Card :=
  (RANKS.map fun r => SUITS.map fun s => Card.mk r s).flatten

/-- `[...] * num_decks`: the single deck repeated `num_decks` times. -/
def fullPool (num_decks : Nat) : List Card :=
  (List.replicate num_decks oneDeck).flatten

/-- The `Shoe` object: deck count and the mutable card list. -/
structure Shoe where
  num_decks : Nat
  cards : List Card
deriving DecidableEq, Repr

/-- The state a draw touches: the shoe plus the cursor into the
module-level `random` stream. -/
structure SimSt where
  shoe : Shoe
  cur : Nat
deriving Repr

/-- `Shoe.shuffle`: rebuild the full multi-deck pool and `random.shuffle` it. -/
def Shoe.shuffle (g : Nat → Nat) (s : Shoe) (cur : Nat) : Shoe × Nat :=
  let (cards, cur') := fyShuffle g cur (fullPool s.num_decks)
  ({ s with cards := cards }, cur')

/-- `Shoe.__init__`: store `num_decks`, start empty, shuffle at once. -/
def Shoe.init (g : Nat → Nat) (num_decks : Nat) (cur : Nat) : Shoe × Nat :=
  Shoe.shuffle g { num_decks := num_decks, cards := [] } cur

/-- `list.pop()`: remove and return the LAST element, `none` on empty. -/
def popLast : List α → Option (α × List α)
  | [] => none
  | x :: xs => some ((x :: xs).getLast (List.cons_ne_nil x xs), (x :: xs).dropLast)

/-- The reshuffle-on-depletion check at the top of `Shoe.draw`:
`if len(self.cards) < 15: self.shuffle()`. -/
def preDraw (g : Nat → Nat) (st : SimSt) : SimSt :=
  if st.shoe.cards.length < 15 then
    let (s, cur) := Shoe.shuffle g st.shoe st.cur
    { shoe := s, cur := cur }
  else st

/-- `Shoe.draw`: reshuffle when below 15 cards, then `self.cards.pop()`. -/
def draw (g : Nat → Nat) (st : SimSt) : Option (Card × SimSt) :=
  let st := preDraw g st
  match popLast st.shoe.cards with
  | none => none
  | some (c, rest) => some (c, { st with shoe := { st.shoe with cards := rest } })

theorem listSwap_length (l : List α) (i j : Nat) :
    (listSwap l i j).length = l.length := by
  unfold listSwap
  split <;> simp

theorem fyAux_length (g : Nat → Nat) :
    ∀ (i cur : Nat) (l : List α), ((fyAux g cur i l).1).length = l.length := by
  intro i
  induction i with
  | zero => intro cur l; rfl
  | succ k ih =>
    intro cur l
    simp only [fyAux]
    rw [ih, listSwap_length]

theorem fyShuffle_length (g : Nat → Nat) (cur : Nat) (l : List α) :
    ((fyShuffle g cur l).1).length = l.length := by
  unfold fyShuffle
  rw [fyAux_length]

theorem oneDeck_length : oneDeck.length = 52 := rfl

theorem fullPool_length (n : Nat) : (fullPool n).length = 52 * n := by
  induction n with
  | zero => rfl
  | succ k ih =>
    simp only [fullPool, List.replicate_succ, List.flatten_cons, List.length_append]
    simp only [fullPool] at ih
    rw [ih, oneDeck_length]
    ring

theorem Shoe.shuffle_length (g : Nat → Nat) (s : Shoe) (cur : Nat) :
    ((Shoe.shuffle g s cur).1).cards.length = 52 * s.num_decks := by
  unfold Shoe.shuffle
  rw [fyShuffle_length, fullPool_length]

/-- `_hand_data(player, dealer)`: the snapshot the resolver returns.  The
source stores `hand_str` renderings; the card lists themselves stand in for
those strings here (the rendering is determined by the list). -/
structure HandData where
  player : List Card
  dealer : List Card
  player_value : Nat
  dealer_value : Nat
deriving DecidableEq, Repr

def mkHandData (player dealer : List Card) : HandData :=
  { player := player, dealer := dealer,
    player_value := hand_value player, dealer_value := hand_value dealer }

/-- The two-card deals for the `num_players - 1` untracked seats: they
consume shoe cards but their hands are dropped. -/
def drawPairs (g : Nat → Nat) : Nat → SimSt → Option SimSt
  | 0, st => some st
  | n + 1, st =>
    match draw g st with
    | none => none
    | some (_, st) =>
      match draw g st with
      | none => none
      | some (_, st) => drawPairs g n st

/-- Player's `while hand_value(player) < 17: player.append(shoe.draw())`. -/
def playerLoop (g : Nat → Nat) (hand : List Card) (st : SimSt) :
    Option (List Card × SimSt) :=
  if _hlt : hand_value hand < 17 then
    match draw g st with
    | none => none
    | some (c, st') => playerLoop g (hand ++ [c]) st'
  else some (hand, st)
termination_by 17 - minVal hand
decreasing_by
  have h1 := minVal_le_hand_value hand
  have h2 := minVal_append_one hand c
  revert _hlt
  omega

/-- The dealer loop's guard: `val < 17 or (dealer_hits_soft_17 and
is_soft_17(dealer))`. -/
def dealer_hit_cond (dealer_hits_soft_17 : Bool) (hand : List Card) : Bool :=
  decide (hand_value hand < 17) || (dealer_hits_soft_17 && is_soft_17 hand)

theorem minVal_lt_of_hit_cond (hs17 : Bool) (hand : List Card)
    (h : dealer_hit_cond hs17 hand = true) : minVal hand < 17 := by
  have hmv := minVal_le_hand_value hand
  have hraw := rawSum_eq_minVal_add hand
  rcases Bool.or_eq_true_iff.mp h with h1 | h1
  · have := of_decide_eq_true h1
    omega
  · have h2 := (Bool.and_eq_true _ _).mp h1
    have h3 := (Bool.and_eq_true _ _).mp h2.2
    have h4 := of_decide_eq_true h3.1
    have h5 := of_decide_eq_true h3.2
    omega

/-- Dealer's `while True: ... if val < 17 or (...): append else break`. -/
def dealerLoop (g : Nat → Nat) (hs17 : Bool) (hand : List Card) (st : SimSt) :
    Option (List Card × SimSt) :=
  if _hcond : dealer_hit_cond hs17 hand = true then
    match draw g st with
    | none => none
    | some (c, st') => dealerLoop g hs17 (hand ++ [c]) st'
  else some (hand, st)
termination_by 17 - minVal hand
decreasing_by
  have h1 := minVal_lt_of_hit_cond hs17 hand _hcond
  have h2 := minVal_append_one hand c
  omega

/-- `simulate_blackjack_hand(shoe, num_players, bet, dealer_hits_soft_17)`:
deal dealer then player then the untracked seats, settle naturals, run the
player and dealer hit loops, compare.  Returns `(result, payout, hand
data)` plus the shoe/generator state the Python code mutates in place. -/
def simulate_blackjack_hand (g : Nat → Nat) (num_players : Nat) (bet : ℚ)
    (dealer_hits_soft_17 : Bool) (st : SimSt) :
    Option (String × ℚ × HandData × SimSt) :=
  match draw g st with
  | none => none
  | some (d1, st) =>
  match draw g st with
  | none => none
  | some (d2, st) =>
  match draw g st with
  | none => none
  | some (p1, st) =>
  match draw g st with
  | none => none
  | some (p2, st) =>
  match drawPairs g (num_players - 1) st with
  | none => none
  | some st =>
    let dealer := [d1, d2]
    let player := [p1, p2]
    let player_bj := is_blackjack player
    let dealer_bj := is_blackjack dealer
    if player_bj && !dealer_bj then
      some ("win", 3/2 * bet, mkHandData player dealer, st)
    else if dealer_bj && !player_bj then
      some ("lose", 0, mkHandData player dealer, st)
    else if player_bj && dealer_bj then
      some ("push", 0, mkHandData player dealer, st)
    else
      match playerLoop g player st with
      | none => none
      | some (player, st) =>
        if 21 < hand_value player then
          some ("lose", 0, mkHandData player dealer, st)
        else
          match dealerLoop g dealer_hits_soft_17 dealer st with
          | none => none
          | some (dealer, st) =>
            let p_val := hand_value player
            let d_val := hand_value dealer
            if 21 < d_val then some ("win", bet, mkHandData player dealer, st)
            else if d_val < p_val then
              some ("win", bet, mkHandData player dealer, st)
            else if p_val < d_val then
              some ("lose", 0, mkHandData player dealer, st)
            else some ("push", 0, mkHandData player dealer, st)

/-- One row of the per-hand ledger `simulate_martingale` accumulates.  The
Python row stores `""` in the value columns of a BUST row and ints
otherwise; `Option Nat` embeds that.  Hand snapshots keep the card lists
(see `mkHandData`). -/
structure Entry where
  hand : Nat
  result : String
  player_hand : List Card
  dealer_hand : List Card
  player_value : Option Nat
  dealer_value : Option Nat
  bet : ℚ
  bankroll : ℚ
  profit : ℚ
  streak_losses : Nat
deriving DecidableEq, Repr

/-- The `if result == "win" ... elif "push" ... else` bankroll update of
`simulate_martingale` (a tag other than win/push is treated as a loss, as
the source's bare `else` does). -/
def settleBank (result : String) (bankroll payout current_bet : ℚ) : ℚ :=
  if result = "win" then bankroll + payout
  else if result = "push" then bankroll
  else bankroll - current_bet

/-- The matching loss-streak update: reset on win, keep on push, else bump. -/
def settleStreak (result : String) (loss_streak : Nat) : Nat :=
  if result = "win" then 0
  else if result = "push" then loss_streak
  else loss_streak + 1

/-- The terminal row appended when the required bet exceeds the bankroll. -/
def bustEntry (hand_num : Nat) (current_bet bankroll bankroll_start : ℚ)
    (loss_streak : Nat) : Entry :=
  { hand := hand_num, result := "BUST", player_hand := [], dealer_hand := [],
    player_value := none, dealer_value := none, bet := current_bet,
    bankroll := bankroll, profit := bankroll - bankroll_start,
    streak_losses := loss_streak }

/-- The row appended after a resolved hand, with post-settlement bankroll
and streak. -/
def playEntry (hand_num : Nat) (result : String) (hands : HandData)
    (current_bet bankroll bankroll_start : ℚ) (loss_streak : Nat) : Entry :=
  { hand := hand_num, result := result, player_hand := hands.player,
    dealer_hand := hands.dealer, player_value := some hands.player_value,
    dealer_value := some hands.dealer_value, bet := current_bet,
    bankroll := bankroll, profit := bankroll - bankroll_start,
    streak_losses := loss_streak }

/-- The body of `simulate_martingale`'s `for hand_num in range(1, num_hands
+ 1)` loop, recursing on the number of hands still allowed.  Mirrors the
source: compute the Martingale bet, bust-check it against the bankroll,
otherwise resolve one hand, settle win/push/lose, append the row, and stop
on ruin (`bankroll <= 0`). -/
def martLoop (g : Nat → Nat) (bankroll_start base_bet bet_multiplier : ℚ)
    (num_players : Nat) (hs17 : Bool) :
    Nat → Nat → ℚ → Nat → SimSt → Option (List Entry)
  | 0, _, _, _, _ => some []
  | fuel + 1, hand_num, bankroll, loss_streak, st =>
    let current_bet := base_bet * bet_multiplier ^ loss_streak
    if bankroll < current_bet then
      some [bustEntry hand_num current_bet bankroll bankroll_start loss_streak]
    else
      match simulate_blackjack_hand g num_players current_bet hs17 st with
      | none => none
      | some (result, payout, hands, st') =>
        let bankroll' := settleBank result bankroll payout current_bet
        let loss_streak' := settleStreak result loss_streak
        let e : Entry := playEntry hand_num result hands current_bet
          bankroll' bankroll_start loss_streak'
        if bankroll' ≤ 0 then some [e]
        else
          match martLoop g bankroll_start base_bet bet_multiplier num_players
              hs17 fuel (hand_num + 1) bankroll' loss_streak' st' with
          | none => none
          | some rest => some (e :: rest)

/-- `simulate_martingale(bankroll_start, base_bet, bet_multiplier, shoe,
num_players, num_hands, dealer_hits_soft_17)`. -/
def simulate_martingale (g : Nat → Nat)
    (bankroll_start base_bet bet_multiplier : ℚ) (st : SimSt)
    (num_players num_hands : Nat) (dealer_hits_soft_17 : Bool) :
    Option (List Entry) :=
  martLoop g bankroll_start base_bet bet_multiplier num_players
    dealer_hits_soft_17 num_hands 1 bankroll_start 0 st

/-- Process-wide random state: numpy's generator (`np_state`, the one
`np.random.seed` writes) and the Python `random` module's stream/cursor
(the one `random.shuffle` reads, never seeded by the app). -/
structure ProcState where
  np_state : Nat
  py_g : Nat → Nat
  py_cur : Nat

/-- `np.random.seed(seed)`: reset numpy's generator only. -/
def np_random_seed (seed : Nat) (p : ProcState) : ProcState :=
  { p with np_state := seed }

/-- The app's Run Simulation handler for one iteration:
`np.random.seed(random_seed)`, `shoe = Shoe(num_decks=num_decks)` (which
shuffles via the `random` module), then `simulate_martingale(...)`. -/
def run_trial (seed : Nat) (bankroll_start base_bet bet_multiplier : ℚ)
    (num_decks num_players num_hands : Nat) (dealer_hits_soft_17 : Bool)
    (p : ProcState) : Option (List Entry) :=
  let p := np_random_seed seed p
  let (shoe, cur) := Shoe.init p.py_g num_decks p.py_cur
  simulate_martingale p.py_g bankroll_start base_bet bet_multiplier
    { shoe := shoe, cur := cur } num_players num_hands dealer_hits_soft_17

/-- Number of aces the reduction loop of `hand_value` counted down to 1. -/
def aces_softened (hand : List Card) : Nat :=
  (rawSum hand - hand_value hand) / 10

/-- The glossary's notion of soft 17, written from the spec's words: "a hand
totaling 17 only by counting an ace as 11" — the best value is 17 and at
least one ace is still counted as 11 there.  Stated for comparison with the
source's `is_soft_17`. -/
def soft17_glossary (hand : List Card) : Prop :=
  hand_value hand = 17 ∧ aces_softened hand < aceCount hand

instance (hand : List Card) : Decidable (soft17_glossary hand) := by
  unfold soft17_glossary
  infer_instance

/-- Settlement/bet bookkeeping of one ledger row against the state left by
the row before it (`pb`/`ps` = previous bankroll and loss streak): the bet
is `base_bet * multiplier ^ streak`, a win resets the streak and adds the
resolver's payout (the bet, or 1.5x the bet on a natural), a push changes
nothing, a loss subtracts the bet and bumps the streak, and a BUST row
repeats the bankroll and streak unchanged. -/
def entryOk (base_bet bet_multiplier pb : ℚ) (ps : Nat) (e : Entry) : Bool :=
  decide (e.bet = base_bet * bet_multiplier ^ ps) &&
  (if e.result = "win" then
    decide (e.streak_losses = 0 ∧
      (e.bankroll = pb + e.bet ∨ e.bankroll = pb + 3/2 * e.bet))
  else if e.result = "push" then
    decide (e.streak_losses = ps ∧ e.bankroll = pb)
  else if e.result = "lose" then
    decide (e.streak_losses = ps + 1 ∧ e.bankroll = pb - e.bet)
  else
    decide (e.streak_losses = ps ∧ e.bankroll = pb))

/-- `entryOk` down a whole ledger, chaining each row's recorded bankroll and
streak into the next row's check. -/
def ledgerOk (base_bet bet_multiplier : ℚ) : ℚ → Nat → List Entry → Bool
  | _, _, [] => true
  | pb, ps, e :: rest =>
    entryOk base_bet bet_multiplier pb ps e &&
      ledgerOk base_bet bet_multiplier e.bankroll e.streak_losses rest

/-- Every BUST row of a ledger is terminal, empty-handed, value-less,
repeats the bankroll of the row before it, and carries a bet exceeding that
bankroll (`pb` starts as the trial's starting bankroll). -/
def bustInv : ℚ → List Entry → Bool
  | _, [] => true
  | pb, e :: rest =>
    if e.result = "BUST" then
      decide (rest = [] ∧ pb < e.bet ∧ e.player_hand = [] ∧
        e.dealer_hand = [] ∧ e.player_value = none ∧ e.dealer_value = none ∧
        e.bankroll = pb)
    else bustInv e.bankroll rest

/-- The hand resolver returns exactly the tags `win`/`lose`/`push`, paying
the bet or 1.5x the bet on a win and nothing otherwise. -/
theorem resolver_shape (g : Nat → Nat) (num_players : Nat) (bet : ℚ)
    (hs17 : Bool) (st : SimSt) (r : String) (pay : ℚ) (hd : HandData)
    (st' : SimSt)
    (h : simulate_blackjack_hand g num_players bet hs17 st =
      some (r, pay, hd, st')) :
    (r = "win" ∧ (pay = bet ∨ pay = 3/2 * bet)) ∨
      ((r = "lose" ∨ r = "push") ∧ pay = 0) := by
  unfold simulate_blackjack_hand at h
  repeat'
    first
    | (split at h)
    | (dsimp only at h)
  all_goals simp only [Option.some.injEq, Prod.mk.injEq, reduceCtorEq] at h
  all_goals obtain ⟨h1, h2, -⟩ := h
  all_goals subst h1
  all_goals subst h2
  · exact Or.inl ⟨rfl, Or.inr rfl⟩
  · exact Or.inr ⟨Or.inl rfl, rfl⟩
  · exact Or.inr ⟨Or.inr rfl, rfl⟩
  · exact Or.inr ⟨Or.inl rfl, rfl⟩
  · exact Or.inl ⟨rfl, Or.inl rfl⟩
  · exact Or.inl ⟨rfl, Or.inl rfl⟩
  · exact Or.inr ⟨Or.inl rfl, rfl⟩
  · exact Or.inr ⟨Or.inr rfl, rfl⟩


/-- One unrolling of the driver loop, packaged: either the bet exceeds the
bankroll and the ledger is the single BUST row, or the resolver ran and the
row (with settled bankroll/streak) is terminal on ruin or followed by the
rest of the trial. -/
theorem entryOk_bust (bb m pb bs : ℚ) (ps hn : Nat) :
    entryOk bb m pb ps (bustEntry hn (bb * m ^ ps) pb bs ps) = true := by
  simp [entryOk, bustEntry]

theorem entryOk_play (bb m pb bs : ℚ) (ps hn : Nat) (result : String)
    (hands : HandData) (payout : ℚ)
    (hshape : (result = "win" ∧
        (payout = bb * m ^ ps ∨ payout = 3/2 * (bb * m ^ ps))) ∨
      ((result = "lose" ∨ result = "push") ∧ payout = 0)) :
    entryOk bb m pb ps (playEntry hn result hands (bb * m ^ ps)
      (settleBank result pb payout (bb * m ^ ps)) bs
      (settleStreak result ps)) = true := by
  rcases hshape with ⟨hw, hp | hp⟩ | ⟨hl | hl, hp⟩
  all_goals subst hp
  all_goals first
    | (subst hw; simp [entryOk, playEntry, settleBank, settleStreak])
    | (subst hl; simp [entryOk, playEntry, settleBank, settleStreak])

theorem mart_step (g : Nat → Nat) (bs bb m : ℚ) (np : Nat) (hs : Bool)
    (fuel hand_num : Nat) (bankroll : ℚ) (streak : Nat) (st : SimSt)
    (L : List Entry)
    (h : martLoop g bs bb m np hs (fuel + 1) hand_num bankroll streak st =
      some L) :
    (bankroll < bb * m ^ streak ∧
      L = [bustEntry hand_num (bb * m ^ streak) bankroll bs streak]) ∨
    (¬ bankroll < bb * m ^ streak ∧
      ∃ result payout hands st2,
        simulate_blackjack_hand g np (bb * m ^ streak) hs st =
          some (result, payout, hands, st2) ∧
        ((settleBank result bankroll payout (bb * m ^ streak) ≤ 0 ∧
          L = [playEntry hand_num result hands (bb * m ^ streak)
                (settleBank result bankroll payout (bb * m ^ streak)) bs
                (settleStreak result streak)]) ∨
         (¬ settleBank result bankroll payout (bb * m ^ streak) ≤ 0 ∧
          ∃ rest,
            martLoop g bs bb m np hs fuel (hand_num + 1)
              (settleBank result bankroll payout (bb * m ^ streak))
              (settleStreak result streak) st2 = some rest ∧
            L = playEntry hand_num result hands (bb * m ^ streak)
                  (settleBank result bankroll payout (bb * m ^ streak)) bs
                  (settleStreak result streak) :: rest))) := by
  simp only [martLoop] at h
  split at h
  · simp only [Option.some.injEq] at h
    exact Or.inl ⟨by assumption, h.symm⟩
  · split at h
    · exact absurd h (by simp)
    · rename_i result payout hands st2 heq
      refine Or.inr ⟨by assumption, result, payout, hands, st2, heq, ?_⟩
      split at h
      · simp only [Option.some.injEq] at h
        exact Or.inl ⟨by assumption, h.symm⟩
      · split at h
        · exact absurd h (by simp)
        · rename_i rest heq2
          simp only [Option.some.injEq] at h
          exact Or.inr ⟨by assumption, rest, heq2, h.symm⟩

theorem mart_ledgerOk (g : Nat → Nat) (bs bb m : ℚ) (np : Nat) (hs : Bool) :
    ∀ (fuel hand_num : Nat) (bankroll : ℚ) (streak : Nat) (st : SimSt)
      (L : List Entry),
      martLoop g bs bb m np hs fuel hand_num bankroll streak st = some L →
      ledgerOk bb m bankroll streak L = true := by
  intro fuel
  induction fuel with
  | zero =>
    intro hand_num bankroll streak st L h
    simp only [martLoop, Option.some.injEq] at h
    subst h
    rfl
  | succ k ih =>
    intro hand_num bankroll streak st L h
    rcases mart_step g bs bb m np hs k hand_num bankroll streak st L h with
      ⟨hlt, hL⟩ | ⟨hge, result, payout, hands, st2, heq, hrest⟩
    · subst hL
      simp [ledgerOk, entryOk_bust]
    · have hshape := resolver_shape g np (bb * m ^ streak) hs st result payout
        hands st2 heq
      rcases hrest with ⟨hruin, hL⟩ | ⟨hcont, rest, heq2, hL⟩
      · subst hL
        simp [ledgerOk, entryOk_play bb m bankroll bs streak hand_num result
          hands payout hshape]
      · subst hL
        have hrec := ih (hand_num + 1)
          (settleBank result bankroll payout (bb * m ^ streak))
          (settleStreak result streak) st2 rest heq2
        have hentry := entryOk_play bb m bankroll bs streak hand_num result
          hands payout hshape
        simp only [ledgerOk, Bool.and_eq_true]
        refine ⟨hentry, ?_⟩
        simpa [playEntry] using hrec

theorem mart_bustInv (g : Nat → Nat) (bs bb m : ℚ) (np : Nat) (hs : Bool) :
    ∀ (fuel hand_num : Nat) (bankroll : ℚ) (streak : Nat) (st : SimSt)
      (L : List Entry),
      martLoop g bs bb m np hs fuel hand_num bankroll streak st = some L →
      bustInv bankroll L = true := by
  intro fuel
  induction fuel with
  | zero =>
    intro hand_num bankroll streak st L h
    simp only [martLoop, Option.some.injEq] at h
    subst h
    rfl
  | succ k ih =>
    intro hand_num bankroll streak st L h
    rcases mart_step g bs bb m np hs k hand_num bankroll streak st L h with
      ⟨hlt, hL⟩ | ⟨hge, result, payout, hands, st2, heq, hrest⟩
    · subst hL
      simp [bustInv, bustEntry, hlt]
    · have hshape := resolver_shape g np (bb * m ^ streak) hs st result payout
        hands st2 heq
      have hres : result ≠ "BUST" := by
        rcases hshape with ⟨hw, -⟩ | ⟨hl | hl, -⟩
        · simp [hw]
        · simp [hl]
        · simp [hl]
      rcases hrest with ⟨hruin, hL⟩ | ⟨hcont, rest, heq2, hL⟩
      · subst hL
        simp [bustInv, playEntry, hres]
      · subst hL
        have hrec := ih (hand_num + 1)
          (settleBank result bankroll payout (bb * m ^ streak))
          (settleStreak result streak) st2 rest heq2
        simp only [bustInv, playEntry, hres, if_neg]
        simpa [playEntry] using hrec

theorem settleBank_nonneg (result : String) (bankroll payout current_bet : ℚ)
    (hbk : 0 < bankroll) (hbet : 0 < current_bet)
    (hnb : ¬ bankroll < current_bet)
    (hshape : (result = "win" ∧
        (payout = current_bet ∨ payout = 3/2 * current_bet)) ∨
      ((result = "lose" ∨ result = "push") ∧ payout = 0)) :
    0 ≤ settleBank result bankroll payout current_bet := by
  rcases hshape with ⟨hw, hp | hp⟩ | ⟨hl | hl, hp⟩
  all_goals subst hp
  · subst hw; simp [settleBank]; linarith
  · subst hw; simp [settleBank]; linarith
  · subst hl; simp [settleBank]; linarith
  · subst hl; simp [settleBank]; linarith

theorem mart_nonneg (g : Nat → Nat) (bs bb m : ℚ) (np : Nat) (hs : Bool)
    (hbb : 0 < bb) (hm : 1 ≤ m) :
    ∀ (fuel hand_num : Nat) (bankroll : ℚ) (streak : Nat) (st : SimSt)
      (L : List Entry),
      0 < bankroll →
      martLoop g bs bb m np hs fuel hand_num bankroll streak st = some L →
      ∀ e ∈ L, 0 ≤ e.bankroll := by
  intro fuel
  induction fuel with
  | zero =>
    intro hand_num bankroll streak st L hbk h
    simp only [martLoop, Option.some.injEq] at h
    subst h
    simp
  | succ k ih =>
    intro hand_num bankroll streak st L hbk h
    have hbet : 0 < bb * m ^ streak :=
      mul_pos hbb (pow_pos (lt_of_lt_of_le zero_lt_one hm) streak)
    rcases mart_step g bs bb m np hs k hand_num bankroll streak st L h with
      ⟨hlt, hL⟩ | ⟨hge, result, payout, hands, st2, heq, hrest⟩
    · subst hL
      intro e he
      simp only [List.mem_singleton] at he
      subst he
      simp [bustEntry]
      linarith
    · have hshape := resolver_shape g np (bb * m ^ streak) hs st result payout
        hands st2 heq
      have hbk' := settleBank_nonneg result bankroll payout (bb * m ^ streak)
        hbk hbet hge hshape
      rcases hrest with ⟨hruin, hL⟩ | ⟨hcont, rest, heq2, hL⟩
      · subst hL
        intro e he
        simp only [List.mem_singleton] at he
        subst he
        simpa [playEntry] using hbk'
      · subst hL
        intro e he
        rcases List.mem_cons.mp he with he | he
        · subst he
          simpa [playEntry] using hbk'
        · exact ih (hand_num + 1)
            (settleBank result bankroll payout (bb * m ^ streak))
            (settleStreak result streak) st2 rest (by linarith) heq2 e he

theorem is_soft_17_iff (hand : List Card) :
    is_soft_17 hand = true ↔ (0 < aceCount hand ∧ rawSum hand = 17) := by
  simp [is_soft_17]

theorem hand_value_of_is_soft_17 (hand : List Card)
    (h : is_soft_17 hand = true) : hand_value hand = 17 := by
  obtain ⟨h1, h2⟩ := (is_soft_17_iff hand).mp h
  unfold hand_value
  rw [h2]
  exact reduceAces_of_le 17 _ (by omega)

theorem popLast_isSome (l : List α) (h : l ≠ []) :
    (popLast l).isSome = true := by
  cases l with
  | nil => exact absurd rfl h
  | cons x xs => rfl

/-- The dealer loop only returns a hand on which its own hit condition has
become false. -/
theorem dealerLoop_stops (g : Nat → Nat) (hs17 : Bool) :
    ∀ (n : Nat) (hand : List Card) (st : SimSt) (d' : List Card)
      (st' : SimSt),
      17 - minVal hand ≤ n →
      dealerLoop g hs17 hand st = some (d', st') →
      dealer_hit_cond hs17 d' = false := by
  intro n
  induction n with
  | zero =>
    intro hand st d' st' hn h
    have hcond : ¬ dealer_hit_cond hs17 hand = true := by
      intro hc
      have := minVal_lt_of_hit_cond hs17 hand hc
      omega
    unfold dealerLoop at h
    rw [dif_neg hcond] at h
    simp only [Option.some.injEq, Prod.mk.injEq] at h
    obtain ⟨h1, -⟩ := h
    subst h1
    simpa using hcond
  | succ k ih =>
    intro hand st d' st' hn h
    by_cases hc : dealer_hit_cond hs17 hand = true
    · unfold dealerLoop at h
      rw [dif_pos hc] at h
      split at h
      · exact absurd h (by simp)
      · rename_i c st2 heq
        have hm := minVal_lt_of_hit_cond hs17 hand hc
        have ha := minVal_append_one hand c
        exact ih (hand ++ [c]) st2 d' st' (by omega) h
    · unfold dealerLoop at h
      rw [dif_neg hc] at h
      simp only [Option.some.injEq, Prod.mk.injEq] at h
      obtain ⟨h1, -⟩ := h
      subst h1
      simpa using hc

/-- A hand with three aces: its raw total 43 is reduced by 30, so more than
one ace is softened there. -/
def tripleAceHand : List Card :=
  [{ rank := .A, suit := .spade }, { rank := .A, suit := .heart },
   { rank := .A, suit := .diamond }, { rank := .K, suit := .spade }]

/-- (A, A, 5): best value 17 with one ace still counted as 11, but raw
total 27. -/
def doubleAceFive : List Card :=
  [{ rank := .A, suit := .spade }, { rank := .A, suit := .heart },
   { rank := .r5, suit := .spade }]

/-- A constant stand-in for the `random` module's stream. -/
def g0 : Nat → Nat := fun _ => 0

/-- A `random`-module stream whose shuffle leaves the shoe dealing, in
order: A♠ and K♠ to the dealer, then 2♠ and 2♥ to the player. -/
def gBJ : Nat → Nat := fun cur => [48, 44, 0, 1].getD cur 0

/-- Like `gBJ` but the player's first card becomes 2♦: a second process
state for the same seed. -/
def gBJ2 : Nat → Nat := fun cur => [48, 44, 2, 1].getD cur 0

/-- A fresh one-deck shoe state before its construction-time shuffle. -/
def st0 : SimSt := { shoe := { num_decks := 1, cards := [] }, cur := 0 }

set_option maxRecDepth 40000 in
/-- C1: the seed does not determine the ledger.  `np.random.seed` writes
numpy's generator while `Shoe.shuffle` draws from the never-seeded `random`
module, so `run_trial` is invariant under changing the seed, and two runs
with the same seed and parameters but different `random`-module states
(here `gBJ` vs `gBJ2`) yield different ledgers — against the claim that a
fixed seed reproduces the ledger. -/
theorem seed_does_not_determine_ledger :
    (∀ (seed1 seed2 : Nat) (bankroll_start base_bet bet_multiplier : ℚ)
      (num_decks num_players num_hands : Nat) (hs17 : Bool) (p : ProcState),
      run_trial seed1 bankroll_start base_bet bet_multiplier num_decks
          num_players num_hands hs17 p =
        run_trial seed2 bankroll_start base_bet bet_multiplier num_decks
          num_players num_hands hs17 p) ∧
    run_trial 42 1000 10 2 1 1 1 false
        { np_state := 0, py_g := gBJ, py_cur := 0 } ≠
      run_trial 42 1000 10 2 1 1 1 false
        { np_state := 0, py_g := gBJ2, py_cur := 0 } := by
  constructor
  · intro seed1 seed2 bs bb m nd np nh hs p
    rfl
  · with_unfolding_all decide

/-- C2: `hand_value` returns the best blackjack total: it equals the raw
sum (aces as 11) minus 10 for each softened ace, is at most 21 unless every
ace is already counted as 1, and dominates every non-busting choice of
softened aces; a three-ace hand has more than one ace softened (43 → 13). -/
theorem hand_value_best_total (hand : List Card) :
    (∃ k, k ≤ aceCount hand ∧ hand_value hand = rawSum hand - 10 * k ∧
      (hand_value hand ≤ 21 ∨ k = aceCount hand) ∧
      (∀ j, j ≤ aceCount hand → rawSum hand - 10 * j ≤ 21 →
        rawSum hand - 10 * j ≤ hand_value hand)) ∧
    (hand_value tripleAceHand = 13 ∧ aceCount tripleAceHand = 3 ∧
      rawSum tripleAceHand = 43) :=
  ⟨reduceAces_spec (aceCount hand) (rawSum hand),
    by decide, by decide, by decide⟩

/-- C3: `is_soft_17` holds exactly when the hand has an ace and its
unreduced total (every ace as 11) is exactly 17; it is true on (A, 6),
false on (A, K) and false on (10, 7). -/
theorem is_soft_17_unreduced :
    (∀ hand : List Card, is_soft_17 hand = true ↔
      (0 < aceCount hand ∧ rawSum hand = 17)) ∧
    is_soft_17 [{ rank := .A, suit := .spade },
      { rank := .r6, suit := .spade }] = true ∧
    is_soft_17 [{ rank := .A, suit := .spade },
      { rank := .K, suit := .spade }] = false ∧
    is_soft_17 [{ rank := .r10, suit := .spade },
      { rank := .r7, suit := .spade }] = false :=
  ⟨is_soft_17_iff, by decide, by decide, by decide⟩

/-- C4 counterexample: (A, A, 5) totals 17 only by counting an ace as 11
(the glossary's soft-17 notion holds of it), yet `is_soft_17` returns
false, because its unreduced total is 27, not 17. -/
theorem soft17_glossary_counterexample :
    soft17_glossary doubleAceFive ∧ is_soft_17 doubleAceFive = false ∧
    hand_value doubleAceFive = 17 := by
  refine ⟨?_, by decide, by decide⟩
  constructor
  · decide
  · decide

/-- C4 (amended): `is_soft_17` is exactly the unreduced-total test — true
iff an ace is present and the sum with every ace as 11 is 17.  That test
implies the glossary's best-value notion (best value 17 with an ace counted
as 11), but not conversely: hands like (A, A, 5) satisfy the glossary
notion while `is_soft_17` is false. -/
theorem is_soft_17_amended :
    (∀ hand : List Card, is_soft_17 hand = true ↔
      (0 < aceCount hand ∧ rawSum hand = 17)) ∧
    (∀ hand : List Card, is_soft_17 hand = true → soft17_glossary hand) := by
  refine ⟨is_soft_17_iff, ?_⟩
  intro hand h
  obtain ⟨h1, h2⟩ := (is_soft_17_iff hand).mp h
  have hv := hand_value_of_is_soft_17 hand h
  constructor
  · exact hv
  · unfold aces_softened
    rw [hv, h2]
    simpa using h1

/-- C5: the dealer's hit condition `val < 17 or (dealer_hits_soft_17 and
is_soft_17(dealer))` is equivalent to drawing exactly while value < 17 or
(value = 17 and the hand is soft 17 and the rule is enabled); and the
dealer loop only stops on a hand whose condition is false. -/
theorem dealer_hit_cond_correct :
    (∀ (hs17 : Bool) (hand : List Card),
      dealer_hit_cond hs17 hand = true ↔
        (hand_value hand < 17 ∨
          (hand_value hand = 17 ∧ is_soft_17 hand = true ∧ hs17 = true))) ∧
    (∀ (g : Nat → Nat) (hs17 : Bool) (hand : List Card) (st : SimSt)
        (d' : List Card) (st' : SimSt),
      dealerLoop g hs17 hand st = some (d', st') →
      dealer_hit_cond hs17 d' = false) := by
  constructor
  · intro hs17 hand
    unfold dealer_hit_cond
    constructor
    · intro h
      rcases Bool.or_eq_true_iff.mp h with h1 | h1
      · exact Or.inl (of_decide_eq_true h1)
      · obtain ⟨hh, hsoft⟩ := (Bool.and_eq_true _ _).mp h1
        exact Or.inr ⟨hand_value_of_is_soft_17 hand hsoft, hsoft, hh⟩
    · intro h
      rcases h with h | ⟨h1, h2, h3⟩
      · exact Bool.or_eq_true_iff.mpr (Or.inl (decide_eq_true h))
      · subst h3
        exact Bool.or_eq_true_iff.mpr (Or.inr (by simp [h2]))
  · exact fun g hs17 hand st d' st' h =>
      dealerLoop_stops g hs17 (17 - minVal hand) hand st d' st' (le_refl _) h

/-- C6: every ledger of a trial satisfies the Martingale bookkeeping: each
row's bet is `base_bet * multiplier ^ streak` for the streak left by the
previous row, a win adds the resolver's payout (bet, or 1.5x bet) and
resets the streak, a push changes nothing, and a loss subtracts the bet and
bumps the streak. -/
theorem martingale_settlement (g : Nat → Nat)
    (bankroll_start base_bet bet_multiplier : ℚ) (st : SimSt)
    (num_players num_hands : Nat) (hs17 : Bool) (L : List Entry)
    (h : simulate_martingale g bankroll_start base_bet bet_multiplier st
      num_players num_hands hs17 = some L) :
    ledgerOk base_bet bet_multiplier bankroll_start 0 L = true :=
  mart_ledgerOk g bankroll_start base_bet bet_multiplier num_players hs17
    num_hands 1 bankroll_start 0 st L h

set_option maxRecDepth 40000 in
theorem martingale_settlement_witness :
    ledgerOk 10 2 1000 0
      ((simulate_martingale gBJ 1000 10 2
          { shoe := (Shoe.init gBJ 1 0).1, cur := (Shoe.init gBJ 1 0).2 }
          1 1 false).getD []) = true :=
  martingale_settlement gBJ 1000 10 2
    { shoe := (Shoe.init gBJ 1 0).1, cur := (Shoe.init gBJ 1 0).2 }
    1 1 false _ (by with_unfolding_all decide)

/-- C7: when the required bet exceeds the bankroll the driver appends the
single terminal BUST row (empty hands, no values, the computed bet, the
unchanged bankroll) without consulting the hand resolver or the shoe; and
in every produced ledger a BUST row is last, repeats the previous row's
bankroll, and carries a bet exceeding it (the starting bankroll for hand
1). -/
theorem martingale_bust_terminal (g : Nat → Nat)
    (bankroll_start base_bet bet_multiplier : ℚ) (num_players : Nat)
    (hs17 : Bool) :
    (∀ (fuel hand_num : Nat) (bankroll : ℚ) (streak : Nat) (st : SimSt),
      bankroll < base_bet * bet_multiplier ^ streak →
      martLoop g bankroll_start base_bet bet_multiplier num_players hs17
          (fuel + 1) hand_num bankroll streak st =
        some [bustEntry hand_num (base_bet * bet_multiplier ^ streak)
          bankroll bankroll_start streak]) ∧
    (∀ (st : SimSt) (num_hands : Nat) (L : List Entry),
      simulate_martingale g bankroll_start base_bet bet_multiplier st
          num_players num_hands hs17 = some L →
      bustInv bankroll_start L = true) := by
  constructor
  · intro fuel hand_num bankroll streak st hlt
    simp only [martLoop]
    rw [if_pos hlt]
  · intro st nh L h
    exact mart_bustInv g bankroll_start base_bet bet_multiplier num_players
      hs17 nh 1 bankroll_start 0 st L h

/-- C8: for a shoe with at least one deck a draw always succeeds: a
reshuffle rebuilds exactly `52 * num_decks` cards, the pool a draw pops
from always holds at least 15 cards, and `draw` returns a card. -/
theorem shoe_draw_never_fails (g : Nat → Nat) (st : SimSt)
    (hnd : 1 ≤ st.shoe.num_decks) :
    (Shoe.shuffle g st.shoe st.cur).1.cards.length =
      52 * st.shoe.num_decks ∧
    15 ≤ (preDraw g st).shoe.cards.length ∧
    (draw g st).isSome = true := by
  have hlen := Shoe.shuffle_length g st.shoe st.cur
  have h15 : 15 ≤ (preDraw g st).shoe.cards.length := by
    unfold preDraw
    split
    · rcases hsh : Shoe.shuffle g st.shoe st.cur with ⟨s, cur⟩
      rw [hsh] at hlen
      simp at hlen ⊢
      omega
    · omega
  refine ⟨hlen, h15, ?_⟩
  have hne : (preDraw g st).shoe.cards ≠ [] := by
    intro hnil
    rw [hnil] at h15
    simp at h15
  have hsome := popLast_isSome (preDraw g st).shoe.cards hne
  unfold draw
  rcases hp : popLast (preDraw g st).shoe.cards with - | ⟨c, rest⟩
  · rw [hp] at hsome
    simp at hsome
  · simp [hp]

set_option maxRecDepth 40000 in
theorem shoe_draw_never_fails_witness :
    1 ≤ st0.shoe.num_decks ∧
    ((Shoe.shuffle g0 st0.shoe st0.cur).1.cards.length =
        52 * st0.shoe.num_decks ∧
      15 ≤ (preDraw g0 st0).shoe.cards.length ∧
      (draw g0 st0).isSome = true) :=
  ⟨by decide, shoe_draw_never_fails g0 st0 (by decide)⟩

/-- C9 counterexample: with the invalid configuration bankroll = -5 and
base bet 10, the engine does not reject before the trial: it runs and
produces a one-row ledger (a terminal BUST row), not an empty one. -/
theorem no_validation_counterexample :
    simulate_martingale g0 (-5) 10 2 st0 1 1 false =
      some [bustEntry 1 (10 * 2 ^ 0) (-5) (-5) 0] ∧
    (simulate_martingale g0 (-5) 10 2 st0 1 1 false).getD [] ≠ [] := by
  constructor
  · with_unfolding_all decide
  · with_unfolding_all decide

/-- C9 (amended): the engine performs no configuration validation.  An
invalid configuration (here a non-positive starting bankroll with a
positive base bet) is not rejected before the trial: the trial starts and
immediately records a terminal BUST ledger row; only the UI widgets
constrain the remaining parameters. -/
theorem invalid_config_not_rejected (g : Nat → Nat)
    (bankroll_start base_bet bet_multiplier : ℚ) (st : SimSt)
    (num_players num_hands : Nat) (hs17 : Bool)
    (hbs : bankroll_start ≤ 0) (hbb : 0 < base_bet)
    (hnh : 1 ≤ num_hands) :
    simulate_martingale g bankroll_start base_bet bet_multiplier st
        num_players num_hands hs17 =
      some [bustEntry 1 (base_bet * bet_multiplier ^ 0) bankroll_start
        bankroll_start 0] := by
  obtain ⟨k, rfl⟩ : ∃ k, num_hands = k + 1 := ⟨num_hands - 1, by omega⟩
  unfold simulate_martingale
  simp only [martLoop]
  rw [if_pos]
  rw [pow_zero, mul_one]
  linarith

theorem invalid_config_not_rejected_witness :
    simulate_martingale g0 (-5) 10 2 st0 1 1 false =
      some [bustEntry 1 (10 * 2 ^ 0) (-5) (-5) 0] :=
  invalid_config_not_rejected g0 (-5) 10 2 st0 1 1 false (by norm_num)
    (by norm_num) (le_refl 1)

/-- C10: with positive starting bankroll, positive base bet and multiplier
at least 1, every ledger row records a non-negative bankroll, and a row
whose bankroll triggers the ruin stop (bankroll at most 0) records exactly
0. -/
theorem bankroll_never_negative (g : Nat → Nat)
    (bankroll_start base_bet bet_multiplier : ℚ) (st : SimSt)
    (num_players num_hands : Nat) (hs17 : Bool) (L : List Entry)
    (hbs : 0 < bankroll_start) (hbb : 0 < base_bet)
    (hm : 1 ≤ bet_multiplier)
    (h : simulate_martingale g bankroll_start base_bet bet_multiplier st
      num_players num_hands hs17 = some L) :
    L.all (fun e => decide (0 ≤ e.bankroll) &&
      decide (e.bankroll ≤ 0 → e.bankroll = 0)) = true := by
  have hall := mart_nonneg g bankroll_start base_bet bet_multiplier
    num_players hs17 hbb hm num_hands 1 bankroll_start 0 st L hbs h
  rw [List.all_eq_true]
  intro e he
  have h0 := hall e he
  have h1 : e.bankroll ≤ 0 → e.bankroll = 0 := fun hle => le_antisymm hle h0
  simp [h0, h1]
  exact h0.lt_or_eq.imp (fun hx => hx) (fun hx => hx.symm)

set_option maxRecDepth 40000 in
theorem bankroll_never_negative_witness :
    ((simulate_martingale gBJ 1000 10 2
        { shoe := (Shoe.init gBJ 1 0).1, cur := (Shoe.init gBJ 1 0).2 }
        1 1 false).getD []).all (fun e => decide (0 ≤ e.bankroll) &&
      decide (e.bankroll ≤ 0 → e.bankroll = 0)) = true :=
  bankroll_never_negative gBJ 1000 10 2
    { shoe := (Shoe.init gBJ 1 0).1, cur := (Shoe.init gBJ 1 0).2 }
    1 1 false _ (by norm_num) (by norm_num) (by norm_num)
    (by with_unfolding_all decide)

end Casino
